import Mathlib

/-!
Verification development for the `nidhz_ultimate` scanner core.

The Python sources under `nidhz_ultimate/core/` are shallowly embedded:
pure decision functions become Lean functions on explicit data, the
thread-pool scan loop becomes a fold over the (completion-ordered) list of
per-candidate outcomes, and the HTTP transport is an explicit oracle
argument (the transport lives outside the core, per the spec §6).
Strings are modelled as `List Char`; Python wall-clock seconds as `ℚ`.
-/

namespace Nidhz

/-- Model of a transport `Response` object as consumed by the core:
`status_code`, the body text (Python `response.text`; `response.content`
is modelled by the same character sequence) and
`response.elapsed.total_seconds()` as a rational. -/
structure Response where
  status_code : Nat
  text : List Char
  elapsed_seconds : ℚ
deriving DecidableEq

/-! ## DirectoryScanner (`core/directory_scanner.py`) -/

namespace DirectoryScanner

/-- `DirectoryScanner._is_interesting_response`, which only inspects
`response.status_code`: the chain of `if` tests from the source. -/
def is_interesting_response (status_code : Nat) : Bool :=
  -- Always interesting status codes
  if status_code ∈ [200, 201, 204] then true
  -- Redirects
  else if status_code ∈ [301, 302, 303, 307, 308] then true
  -- Auth required
  else if status_code ∈ [401, 403] then true
  -- Server errors might leak info
  else if status_code ≥ 500 then true
  else false

/-- The classification rule as worded in spec §4.1, for the refinement
comparison: success, redirect, access-controlled, or `≥ 500`. -/
def specInteresting (status : Nat) : Prop :=
  status ∈ [200, 201, 204] ∨ status ∈ [301, 302, 303, 307, 308] ∨
    status ∈ [401, 403] ∨ 500 ≤ status

/-- The result dictionary built by `_check_directory` for an interesting
response (the `url`, `headers`, `title` and `response_time` fields are
carried through from the request and response; the fields the claims
inspect are kept). -/
structure ProbeResult where
  status_code : Nat
  content_length : Nat
deriving DecidableEq

/-- What `self.client.get(url, follow_redirects=False)` did for one
candidate: raised an exception, returned a falsy value, or returned a
`Response`. -/
inductive TransportOutcome where
  | raised
  | falsy
  | response (r : Response)

/-- What the collection loop in `scan` observes for one future:
either `_check_directory` ran to completion (it catches every `Exception`
from the transport itself), or `future.result` raised in the collection
loop. -/
inductive CollectOutcome where
  | transport (t : TransportOutcome)
  | collectFailed

/-- `DirectoryScanner._check_directory`: a raised transport exception is
caught by the `except` inside `_check_directory` and a falsy response is
filtered by `if response and ...`; both yield `None`. An interesting
response yields the result dictionary. -/
def check_directory : TransportOutcome → Option ProbeResult
  | .raised => none
  | .falsy => none
  | .response r =>
      if is_interesting_response r.status_code then
        some { status_code := r.status_code, content_length := r.text.length }
      else
        none

/-- The mutable statistics dictionary of the scanner (`start_time` and
`end_time` are wall-clock and not modelled). -/
structure ScanStats where
  total : Nat
  found : Nat
  errors : Nat
deriving DecidableEq

/-- One iteration of the `for future in as_completed(...)` loop in
`DirectoryScanner.scan`: on a collection failure the `except` branch
increments `errors`; otherwise a truthy `_check_directory` result is
appended to `results` and `found` is incremented; in every case the
`total` counter is set to the number of futures processed so far. -/
def scan_step (outcome : String → CollectOutcome)
    (acc : ScanStats × List ProbeResult) (w : String) :
    ScanStats × List ProbeResult :=
  match outcome w with
  | .collectFailed =>
      ({ acc.1 with errors := acc.1.errors + 1, total := acc.1.total + 1 }, acc.2)
  | .transport t =>
      match check_directory t with
      | some r =>
          ({ acc.1 with found := acc.1.found + 1, total := acc.1.total + 1 },
            acc.2 ++ [r])
      | none =>
          ({ acc.1 with total := acc.1.total + 1 }, acc.2)

/-- The collection loop of `DirectoryScanner.scan` over the submitted
candidates. `wordlist` is the candidate list in the order `as_completed`
yields the corresponding futures (a permutation of submission order;
the statistics are order-insensitive), and `outcome` is the
deterministic stubbed transport keyed by candidate. -/
def scan_process (outcome : String → CollectOutcome) (wordlist : List String) :
    ScanStats × List ProbeResult :=
  wordlist.foldl (scan_step outcome) (⟨0, 0, 0⟩, [])

/-- Errors the scan can surface before processing: the only one the code
can produce is the `ValueError` raised by
`ThreadPoolExecutor(max_workers=...)` when the clamped thread count is
not positive (stdlib behaviour, raised at pool creation in `scan`,
before any request is submitted). There is no validation of the base
URL or of the wordlist anywhere in `__init__` or `scan`. -/
inductive ScanError where
  | threadPoolValueError
deriving DecidableEq

/-- `DirectoryScanner.__init__` clamping: `self.threads = min(threads, 200)`. -/
def init_threads (threads : Int) : Int :=
  min threads 200

/-- `DirectoryScanner.scan` end to end: create the pool (which fails for a
non-positive clamped thread count), then run the collection loop and
return the results and statistics. -/
def scan (threads : Int) (outcome : String → CollectOutcome)
    (wordlist : List String) :
    Except ScanError (ScanStats × List ProbeResult) :=
  if init_threads threads ≤ 0 then
    .error .threadPoolValueError
  else
    .ok (scan_process outcome wordlist)

/-- Helper predicate: an outcome that makes `future.result` raise in the
collection loop. -/
def isCollectFailed : CollectOutcome → Bool
  | .collectFailed => true
  | .transport _ => false

/-- Helper predicate: a transport call that raised. -/
def isRaised : CollectOutcome → Bool
  | .transport .raised => true
  | _ => false

/-- The contribution of one candidate to the results list: what the
collection loop appends for it (nothing on a collection failure). -/
def collected (outcome : String → CollectOutcome) (w : String) :
    Option ProbeResult :=
  match outcome w with
  | .transport t => check_directory t
  | .collectFailed => none

end DirectoryScanner

/-! ## String helpers shared by the strategy models -/

/-- Boolean prefix test on character lists. -/
def isPrefixOfB : List Char → List Char → Bool
  | [], _ => true
  | _ :: _, [] => false
  | x :: xs, y :: ys => x = y && isPrefixOfB xs ys

/-- Python's `needle in haystack` substring test. -/
def containsSub (needle : List Char) : List Char → Bool
  | [] => isPrefixOfB needle []
  | hay@(_ :: rest) => isPrefixOfB needle hay || containsSub needle rest

/-- Python's `str.lower()`, characterwise. -/
def toLowerChars (s : List Char) : List Char :=
  s.map Char.toLower

/-- Python's `str.replace(old, new)` for a single-character pattern
(the only form the scanners use): every occurrence of `c` is replaced
by `rep`. -/
def replaceChar (c : Char) (rep : List Char) : List Char → List Char
  | [] => []
  | x :: xs => (if x = c then rep else [x]) ++ replaceChar c rep xs

/-! ## SQLiScanner (`core/sqli_scanner.py`)

The per-request URL building (`parse_qs`, `urlencode`, `_replace`) is a
deterministic injective encoding of "this parameter carries this
payload"; the transport oracles are therefore keyed directly by
`(parameter, payload)`.  `_detect_sql_error` (a pure regex-table match
on the response text) is abstracted as the oracle `detectE`, which
returns the `(db_type, error_msg)` a response to the mutated request
matched, and `none` when the request raised, the response was falsy, or
no pattern matched — exactly the three cases in which the source's
payload loop continues. -/

namespace SQLiScanner

/-- Confidence levels attached to findings. -/
inductive Confidence where
  | High
  | Medium
  | Low
deriving DecidableEq

/-- Which detection strategy issued a probe request. -/
inductive Strategy where
  | error
  | timing
  | boolean
deriving DecidableEq

/-- One probe request issued through the transport, identified by the
strategy that issued it and the mutated `(parameter, payload)` pair. -/
structure Request where
  strategy : Strategy
  param : String
  payload : String
deriving DecidableEq

/-- The finding dictionaries appended by the three strategies, with the
fields the claims inspect. -/
inductive SqliFinding where
  | errorBased (database : String) (param : String) (payload : String)
      (evidence : List Char) (confidence : Confidence)
  | timeBased (param : String) (payload : String)
      (baseline_time response_time : ℚ) (confidence : Confidence)
  | booleanBased (param : String) (true_length false_length : Nat)
      (confidence : Confidence)
deriving DecidableEq

/-- The `confidence` field common to all three finding shapes. -/
def SqliFinding.confidence : SqliFinding → Confidence
  | .errorBased _ _ _ _ c => c
  | .timeBased _ _ _ _ c => c
  | .booleanBased _ _ _ c => c

/-- `SQLiScanner._calculate_error_confidence`: the four high-confidence
indicator strings, matched case-insensitively as substrings. -/
def high_confidence_indicators : List (List Char) :=
  ["SQL syntax".data, "ORA-".data, "unclosed quotation".data,
    "incorrect syntax".data]

/-- `SQLiScanner._calculate_error_confidence`. -/
def calculate_error_confidence (error_msg : List Char) : Confidence :=
  if high_confidence_indicators.any
      (fun ind => containsSub (toLowerChars ind) (toLowerChars error_msg)) then
    .High
  else
    .Medium

/-- `SQLiScanner._calculate_time_confidence`. -/
def calculate_time_confidence (response_time baseline_time : ℚ) : Confidence :=
  let delay := response_time - baseline_time
  if delay > 10 then .High
  else if delay > 5 then .Medium
  else .Low

/-- The inner payload loop of `_test_error_based` for one parameter:
payloads are tried in order, a request is issued for each, and the loop
breaks on the first detected SQL error (evidence truncated to 500
characters). -/
def error_payload_loop (detectE : String → String → Option (String × List Char))
    (param : String) : List String → List SqliFinding × List Request
  | [] => ([], [])
  | payload :: rest =>
      match detectE param payload with
      | some (db, msg) =>
          ([.errorBased db param payload (msg.take 500)
              (calculate_error_confidence msg)],
            [⟨.error, param, payload⟩])
      | none =>
          let tail := error_payload_loop detectE param rest
          (tail.1, ⟨.error, param, payload⟩ :: tail.2)

/-- `SQLiScanner._test_error_based`: every parameter is probed with the
first 15 error payloads, at most one finding per parameter. -/
def test_error_based (detectE : String → String → Option (String × List Char))
    (error_payloads : List String) : List String → List SqliFinding × List Request
  | [] => ([], [])
  | p :: rest =>
      let head := error_payload_loop detectE p (error_payloads.take 15)
      let tail := test_error_based detectE error_payloads rest
      (head.1 ++ tail.1, head.2 ++ tail.2)

/-- The inner payload loop of `_test_time_based` for one parameter:
`fetchT` returns the measured wall-clock duration of the mutated
request (`none` when the request raised or the response was falsy); a
response slower than `baseline + 5` seconds confirms the payload and
breaks the loop. -/
def time_payload_loop (fetchT : String → String → Option ℚ)
    (baseline_time : ℚ) (param : String) :
    List String → List SqliFinding × List Request
  | [] => ([], [])
  | payload :: rest =>
      let req : Request := ⟨.timing, param, payload⟩
      match fetchT param payload with
      | some response_time =>
          if response_time > baseline_time + 5 then
            ([.timeBased param payload baseline_time response_time
                (calculate_time_confidence response_time baseline_time)],
              [req])
          else
            let tail := time_payload_loop fetchT baseline_time param rest
            (tail.1, req :: tail.2)
      | none =>
          let tail := time_payload_loop fetchT baseline_time param rest
          (tail.1, req :: tail.2)

/-- `SQLiScanner._test_time_based`: every parameter is probed with the
first 10 time payloads against the baseline elapsed time. -/
def test_time_based (fetchT : String → String → Option ℚ)
    (baseline_time : ℚ) (time_payloads : List String) :
    List String → List SqliFinding × List Request
  | [] => ([], [])
  | p :: rest =>
      let head := time_payload_loop fetchT baseline_time p (time_payloads.take 10)
      let tail := test_time_based fetchT baseline_time time_payloads rest
      (head.1 ++ tail.1, head.2 ++ tail.2)

/-- The single-quote character, written by code point to keep the fixed
boolean payload strings verbatim. -/
def sq : Char := Char.ofNat 39

/-- The fixed true-condition payload of `_test_boolean_based`. -/
def true_payload : String :=
  String.mk ([sq] ++ " AND ".data ++ [sq, '1', sq, '='] ++ [sq, '1', sq]
    ++ " -- ".data)

/-- The fixed false-condition payload of `_test_boolean_based`. -/
def false_payload : String :=
  String.mk ([sq] ++ " AND ".data ++ [sq, '1', sq, '='] ++ [sq, '2', sq]
    ++ " -- ".data)

/-- `SQLiScanner._responses_differ_significantly`: length differential
over 100, baseline-anchored differential (one side within 50 of the
baseline length, the other more than 200 away), or differing status
codes. -/
def responses_differ_significantly (resp1 resp2 baseline : Response) : Bool :=
  let len1 : ℤ := resp1.text.length
  let len2 : ℤ := resp2.text.length
  let baseline_len : ℤ := baseline.text.length
  -- Check for significant length difference
  if (len1 - len2).natAbs > 100 then true
  else
    -- Check if one response is similar to baseline and other is not
    let len_diff1 := (len1 - baseline_len).natAbs
    let len_diff2 := (len2 - baseline_len).natAbs
    if (len_diff1 < 50 ∧ len_diff2 > 200) ∨ (len_diff2 < 50 ∧ len_diff1 > 200) then
      true
    -- Check status codes
    else if resp1.status_code ≠ resp2.status_code then true
    else false

/-- The body of `_test_boolean_based` for one parameter: the
true-condition request is always issued; the false-condition request is
issued only if the first returned a truthy response (a raised first
request is caught by the per-parameter `except` and a falsy one hits
`continue`, both before the second `get`); a significant differential
yields a finding with hard-coded 'High' confidence. -/
def test_boolean_param (fetchB : String → String → Option Response)
    (baseline : Response) (param : String) : List SqliFinding × List Request :=
  let treq : Request := ⟨.boolean, param, true_payload⟩
  match fetchB param true_payload with
  | none => ([], [treq])
  | some true_response =>
      let freq : Request := ⟨.boolean, param, false_payload⟩
      match fetchB param false_payload with
      | none => ([], [treq, freq])
      | some false_response =>
          if responses_differ_significantly true_response false_response baseline then
            ([.booleanBased param true_response.text.length
                false_response.text.length .High],
              [treq, freq])
          else
            ([], [treq, freq])

/-- `SQLiScanner._test_boolean_based` over all parameters. -/
def test_boolean_based (fetchB : String → String → Option Response)
    (baseline : Response) : List String → List SqliFinding × List Request
  | [] => ([], [])
  | p :: rest =>
      let head := test_boolean_param fetchB baseline p
      let tail := test_boolean_based fetchB baseline rest
      (head.1 ++ tail.1, head.2 ++ tail.2)

/-- `SQLiScanner.scan`: fetch the baseline (a raised or falsy baseline
returns no findings), run the error-signature strategy over all
parameters, and run the timing and boolean strategies only when the
error strategy found nothing at all. The second component is the log,
in order, of every strategy probe issued through the transport. -/
def scan (params : List String) (baseline : Option Response)
    (error_payloads time_payloads : List String)
    (detectE : String → String → Option (String × List Char))
    (fetchT : String → String → Option ℚ)
    (fetchB : String → String → Option Response) :
    List SqliFinding × List Request :=
  match baseline with
  | none => ([], [])
  | some b =>
      let ev := test_error_based detectE error_payloads params
      if ev.1.isEmpty then
        let tv := test_time_based fetchT b.elapsed_seconds time_payloads params
        let bv := test_boolean_based fetchB b params
        (ev.1 ++ (tv.1 ++ bv.1), ev.2 ++ (tv.2 ++ bv.2))
      else
        ev

/-- The concrete C2 scenario: one parameter `id`, an error strategy that
detects nothing, a timing oracle slow enough to confirm, and a boolean
oracle returning responses identical to the baseline. -/
def strategy_skip_scenario : List SqliFinding × List Request :=
  scan ["id"] (some ⟨200, "page".data, 3/10⟩) ["p1"] ["t1"]
    (fun _ _ => none) (fun _ _ => some 10)
    (fun _ _ => some ⟨200, "page".data, 0⟩)

end SQLiScanner

/-! ## XSSScanner (`core/xss_scanner.py`) -/

namespace XSSScanner

/-- `payload.replace('<', '&lt;').replace('>', '&gt;')`. -/
def html_entity_variant (payload : List Char) : List Char :=
  replaceChar '>' ("&gt;".data) (replaceChar '<' ("&lt;".data) payload)

/-- `payload.replace('<', '%3C').replace('>', '%3E')`. -/
def percent_variant (payload : List Char) : List Char :=
  replaceChar '>' ("%3E".data) (replaceChar '<' ("%3C".data) payload)

/-- `payload.replace('<', '\\u003C').replace('>', '\\u003E')` (literal
backslash-u escapes). -/
def unicode_variant (payload : List Char) : List Char :=
  replaceChar '>' ("\\u003E".data) (replaceChar '<' ("\\u003C".data) payload)

/-- The `encoded_variations` list of `_is_xss_reflected`. -/
def encoded_variations (payload : List Char) : List (List Char) :=
  [html_entity_variant payload, percent_variant payload,
    unicode_variant payload]

/-- `XSSScanner._is_xss_reflected` on `response.text`: verbatim
containment, then the three encoded variations, then (for payloads over
10 characters) the first-5/last-5 partial-reflection heuristic. -/
def is_xss_reflected (payload : List Char) (text : List Char) : Bool :=
  -- Check response body
  if containsSub payload text then true
  -- Check for encoded versions
  else if (encoded_variations payload).any (fun e => containsSub e text) then
    true
  -- Check for partial reflection
  else if payload.length > 10 then
    containsSub (payload.take 5) text &&
      containsSub (payload.drop (payload.length - 5)) text
  else false

end XSSScanner

/-! ## URL building (`DirectoryScanner._build_url` over stdlib `urljoin`)

`_build_url` strips one leading '/' from the candidate and calls
`urllib.parse.urljoin(self.base_url + '/', path)`, where `__init__` set
`self.base_url = base_url.rstrip('/')`.  `urljoin` is stdlib, not
repository code; it is modelled below (from CPython
`Lib/urllib/parse.py`) restricted to the shapes the scanner produces:
an `http` base `"http://" ++ host ++ bpath` with a nonempty slash-free
host, and a candidate without query/fragment/params separators. -/

namespace DirectoryScanner

/-- `str.split('/')`. -/
def splitSlash : List Char → List (List Char)
  | [] => [[]]
  | c :: cs =>
      match splitSlash cs with
      | [] => [[]]
      | s :: rest => if c = '/' then [] :: s :: rest else (c :: s) :: rest

/-- `'/'.join`. -/
def joinSlash : List (List Char) → List Char
  | [] => []
  | [s] => s
  | s :: rest => s ++ '/' :: joinSlash rest

/-- `str.rstrip('/')`. -/
def rstrip_slash (s : List Char) : List Char :=
  (s.reverse.dropWhile (fun c => c = '/')).reverse

/-- One iteration of CPython `urljoin`'s segment-resolution loop: `..`
pops the output (ignoring a pop from empty), `.` is dropped, anything
else is appended. -/
def resolve_step (acc : List (List Char)) (seg : List Char) :
    List (List Char) :=
  if seg = ['.', '.'] then acc.dropLast
  else if seg = ['.'] then acc
  else acc ++ [seg]

/-- CPython `urljoin`'s dot-segment resolution: the loop over the
segments, plus the trailing empty segment appended when the last input
segment was `.` or `..`. -/
def resolveSegments (segs : List (List Char)) : List (List Char) :=
  let out := segs.foldl resolve_step []
  if segs.getLast? = some ['.'] ∨ segs.getLast? = some ['.', '.'] then
    out ++ [[]]
  else
    out

/-- CPython `urljoin`'s `segments[1:-1] = filter(None, segments[1:-1])`:
empty segments strictly between the first and last are removed. -/
def filterMiddle : List (List Char) → List (List Char)
  | [] => []
  | first :: rest =>
      match rest.getLast? with
      | none => [first]
      | some last =>
          first :: (rest.dropLast.filter (fun s => !s.isEmpty)) ++ [last]

/-- `'/'.join(resolved_path) or '/'`. -/
def joinPath (segs : List (List Char)) : List Char :=
  let j := joinSlash segs
  if j = [] then ['/'] else j

/-- A character allowed in a URI scheme after the first. -/
def schemeChar (c : Char) : Bool :=
  c.isAlphanum || c = '+' || c = '-' || c = '.'

/-- Helper for `hasScheme`: scheme characters followed by ':'. -/
def hasSchemeAux : List Char → Bool
  | [] => false
  | c :: rest => if c = ':' then true else schemeChar c && hasSchemeAux rest

/-- Does the reference begin with a URI scheme (as `urlparse` would
split one off)? -/
def hasScheme : List Char → Bool
  | [] => false
  | c :: rest => c.isAlpha && hasSchemeAux rest

/-- Model of `urllib.parse.urljoin("http://" ++ host ++ bpath, url)`
(CPython `Lib/urllib/parse.py`) for an http base with authority:
an empty reference returns the base; a reference with its own scheme is
returned unchanged (CPython returns it verbatim for foreign schemes,
and for a same-scheme reference with an authority resolves to the same
string; the authority-free `http:rel` corner is outside this model's
domain); a network-path reference keeps the base scheme; a
root-relative reference replaces the whole base path; any other
reference is merged onto the base path — last base segment dropped
unless empty, interior empty segments filtered — and dot-resolved. -/
def urljoin_http (host bpath url : List Char) : List Char :=
  if url = [] then "http://".data ++ host ++ bpath
  else if hasScheme url then url
  else if isPrefixOfB ['/', '/'] url then "http:".data ++ url
  else if isPrefixOfB ['/'] url then
    "http://".data ++ host ++ joinPath (resolveSegments (splitSlash url))
  else
    let base_parts := splitSlash bpath
    let base_parts :=
      if base_parts.getLast? ≠ some [] then base_parts.dropLast
      else base_parts
    let segments := filterMiddle (base_parts ++ splitSlash url)
    "http://".data ++ host ++ joinPath (resolveSegments segments)

/-- `DirectoryScanner._build_url` composed with `__init__`'s
`base_url.rstrip('/')`: one leading slash is stripped from the
candidate, which is then joined onto `self.base_url + '/'`. The base
URL `"http://" ++ host ++ bpath` is given split into its nonempty,
slash-free host and its path, so `rstrip('/')` acts on the path part. -/
def build_url (host bpath path : List Char) : List Char :=
  let path := if isPrefixOfB ['/'] path then path.drop 1 else path
  urljoin_http host (rstrip_slash bpath ++ ['/']) path

/-- An absolute URL path written as one '/' before each segment
(`absPath [a, b] = "/a/b"`). -/
def absPath (segs : List (List Char)) : List Char :=
  segs.foldr (fun s acc => '/' :: (s ++ acc)) []

/-- A plain path segment: nonempty, no slash, and not a dot-segment. -/
def plainSegment (s : List Char) : Prop :=
  s ≠ [] ∧ '/' ∉ s ∧ s ≠ ['.'] ∧ s ≠ ['.', '.']

instance (s : List Char) : Decidable (plainSegment s) := by
  unfold plainSegment
  infer_instance

end DirectoryScanner

namespace DirectoryScanner

theorem scan_step_total (outcome : String → CollectOutcome)
    (acc : ScanStats × List ProbeResult) (w : String) :
    (scan_step outcome acc w).1.total = acc.1.total + 1 := by
  unfold scan_step
  cases h : outcome w with
  | collectFailed => simp
  | transport t => cases h2 : check_directory t <;> simp [h2]

theorem scan_step_errors (outcome : String → CollectOutcome)
    (acc : ScanStats × List ProbeResult) (w : String) :
    (scan_step outcome acc w).1.errors =
      acc.1.errors + (if isCollectFailed (outcome w) then 1 else 0) := by
  unfold scan_step isCollectFailed
  cases h : outcome w with
  | collectFailed => simp
  | transport t => cases h2 : check_directory t <;> simp [h2]

theorem scan_step_results (outcome : String → CollectOutcome)
    (acc : ScanStats × List ProbeResult) (w : String) :
    (scan_step outcome acc w).2 = acc.2 ++ (collected outcome w).toList := by
  unfold scan_step collected
  cases h : outcome w with
  | collectFailed => simp
  | transport t => cases h2 : check_directory t <;> simp [h2]

theorem scan_step_found (outcome : String → CollectOutcome)
    (acc : ScanStats × List ProbeResult) (w : String) :
    (scan_step outcome acc w).1.found =
      acc.1.found + (collected outcome w).toList.length := by
  unfold scan_step collected
  cases h : outcome w with
  | collectFailed => simp
  | transport t => cases h2 : check_directory t <;> simp [h2]

theorem scan_fold_total (outcome : String → CollectOutcome) :
    ∀ (wl : List String) (acc : ScanStats × List ProbeResult),
      (wl.foldl (scan_step outcome) acc).1.total = acc.1.total + wl.length := by
  intro wl
  induction wl with
  | nil => intro acc; simp
  | cons w ws ih =>
      intro acc
      rw [List.foldl_cons, ih, scan_step_total]
      simp; omega

theorem scan_fold_errors (outcome : String → CollectOutcome) :
    ∀ (wl : List String) (acc : ScanStats × List ProbeResult),
      (wl.foldl (scan_step outcome) acc).1.errors =
        acc.1.errors + wl.countP (fun w => isCollectFailed (outcome w)) := by
  intro wl
  induction wl with
  | nil => intro acc; simp
  | cons w ws ih =>
      intro acc
      rw [List.foldl_cons, ih, scan_step_errors, List.countP_cons]
      by_cases h : isCollectFailed (outcome w) <;> simp [h] <;> omega

theorem scan_fold_results (outcome : String → CollectOutcome) :
    ∀ (wl : List String) (acc : ScanStats × List ProbeResult),
      (wl.foldl (scan_step outcome) acc).2 =
        acc.2 ++ wl.filterMap (collected outcome) := by
  intro wl
  induction wl with
  | nil => intro acc; simp
  | cons w ws ih =>
      intro acc
      rw [List.foldl_cons, ih, scan_step_results, List.filterMap_cons]
      cases h : collected outcome w <;> simp [h]

theorem scan_fold_found (outcome : String → CollectOutcome) :
    ∀ (wl : List String) (acc : ScanStats × List ProbeResult),
      (wl.foldl (scan_step outcome) acc).1.found =
        acc.1.found + (wl.filterMap (collected outcome)).length := by
  intro wl
  induction wl with
  | nil => intro acc; simp
  | cons w ws ih =>
      intro acc
      rw [List.foldl_cons, ih, scan_step_found, List.filterMap_cons]
      cases h : collected outcome w <;> simp [h] <;> omega

end DirectoryScanner

namespace DirectoryScanner

/-- C1: a probe result is retained in the "found" output iff its status
code is in {200,201,204}, in {301,302,303,307,308}, in {401,403}, or is
≥ 500; the found output is exactly the interesting responses, and over
{200,301,401,403,500,404} exactly the first five are retained. -/
theorem classification_rule :
    (∀ status : Nat,
        is_interesting_response status = true ↔ specInteresting status) ∧
    (∀ (outcome : String → CollectOutcome) (wl : List String),
        (scan_process outcome wl).2 = wl.filterMap (collected outcome)) ∧
    (∀ r : Response,
        (check_directory (.response r)).isSome =
          is_interesting_response r.status_code) ∧
    (([200, 301, 401, 403, 500].all is_interesting_response = true) ∧
      is_interesting_response 404 = false) := by
  refine ⟨?_, ?_, ?_, by decide⟩
  · intro status
    unfold is_interesting_response specInteresting
    split_ifs with h1 h2 h3 h4 <;> simp_all
  · intro outcome wl
    unfold scan_process
    rw [scan_fold_results]
    simp
  · intro r
    unfold check_directory
    cases h : is_interesting_response r.status_code <;> simp [h]

/-- C3 counterexample: for the single candidate "admin" whose request
raises a network error, the run completes with the candidate absent but
`errors` stays 0 (the exception is swallowed inside `_check_directory`,
so the error-counting branch of the collection loop never fires),
contradicting the claim that `totalErrors` is incremented. -/
theorem transport_failure_cx :
    (scan_process (fun _ => .transport .raised) ["admin"]).1.errors = 0 ∧
    ¬ (scan_process (fun _ => .transport .raised) ["admin"]).1.errors = 1 ∧
    (scan_process (fun _ => .transport .raised) ["admin"]).2 = [] ∧
    (scan_process (fun _ => .transport .raised) ["admin"]).1.total = 1 := by
  decide

/-- C3 amended: a per-request transport failure is treated as absent (no
ProbeResult emitted) and never aborts the batch — every candidate is
still processed — but `totalErrors` is NOT incremented for it:
`errors` counts exactly the collection-level failures
(`future.result` raising), which a transport failure never causes. -/
theorem transport_failure_amended :
    ∀ (outcome : String → CollectOutcome) (wl : List String),
      (scan_process outcome wl).1.errors =
          wl.countP (fun w => isCollectFailed (outcome w)) ∧
      (scan_process outcome wl).1.total = wl.length ∧
      (scan_process outcome wl).2 = wl.filterMap (collected outcome) ∧
      (∀ w, isRaised (outcome w) = true → collected outcome w = none) := by
  intro outcome wl
  refine ⟨?_, ?_, ?_, ?_⟩
  · unfold scan_process; rw [scan_fold_errors]; simp
  · unfold scan_process; rw [scan_fold_total]; simp
  · unfold scan_process; rw [scan_fold_results]; simp
  · intro w hw
    unfold collected
    unfold isRaised at hw
    cases h : outcome w with
    | collectFailed => rfl
    | transport t => cases t <;> simp_all [check_directory]

/-- Witness for C3 amended at a concrete failing transport. -/
theorem transport_failure_amended_witness :
    (scan_process (fun _ => .transport .raised) ["admin", "login"]).1.errors
        = 0 ∧
    collected (fun _ => .transport .raised) "admin" = none := by
  have h := transport_failure_amended (fun _ => .transport .raised)
    ["admin", "login"]
  exact ⟨by rw [h.1]; decide, h.2.2.2 "admin" (by decide)⟩

/-- C7 counterexample: a probe invocation over an empty candidate set
does not fail with a configuration error; it runs to completion and
returns empty results with all-zero statistics. -/
theorem config_validation_cx :
    scan 50 (fun _ => .transport .raised) [] = .ok (⟨0, 0, 0⟩, []) := by
  rfl

/-- C7 amended: no ConfigurationError validation exists. The worker-pool
size is clamped to `min(requested, 200)`, hence never above 200; any
positive requested concurrency makes the scan run (even on an empty
candidate set or an unvalidated base URL); a requested concurrency ≤ 0
is not rejected at construction but makes the scan fail at worker-pool
creation, before any request is processed. -/
theorem concurrency_clamp_amended :
    (∀ threads : Int, init_threads threads ≤ 200) ∧
    (∀ (threads : Int) (outcome : String → CollectOutcome)
        (wl : List String), 0 < threads →
        scan threads outcome wl = .ok (scan_process outcome wl)) ∧
    (∀ (threads : Int) (outcome : String → CollectOutcome)
        (wl : List String), threads ≤ 0 →
        scan threads outcome wl = .error .threadPoolValueError) := by
  refine ⟨fun threads => min_le_right _ _, ?_, ?_⟩
  · intro threads outcome wl h
    unfold scan init_threads
    rw [if_neg]
    simp only [not_le, lt_min_iff]
    exact ⟨h, by norm_num⟩
  · intro threads outcome wl h
    unfold scan init_threads
    rw [if_pos]
    exact le_trans (min_le_left _ _) h

/-- Witness for C7 amended: concrete positive and non-positive requests. -/
theorem concurrency_clamp_amended_witness :
    scan 50 (fun _ => .transport .raised) ["a"] =
      .ok (scan_process (fun _ => .transport .raised) ["a"]) ∧
    scan (-3) (fun _ => .transport .raised) ["a"] =
      .error .threadPoolValueError := by
  exact ⟨concurrency_clamp_amended.2.1 50 _ _ (by norm_num),
    concurrency_clamp_amended.2.2 (-3) _ _ (by norm_num)⟩

/-- C8: after a completed (non-cancelled) run, `totalIssued` equals the
number of candidate paths, and the counter is bumped exactly once per
processed request (each collection-loop iteration adds exactly one,
whether the request produced a result, was absent, or failed). -/
theorem total_issued_eq_candidates :
    (∀ (outcome : String → CollectOutcome) (wl : List String),
        (scan_process outcome wl).1.total = wl.length) ∧
    (∀ (outcome : String → CollectOutcome)
        (acc : ScanStats × List ProbeResult) (w : String),
        (scan_step outcome acc w).1.total = acc.1.total + 1) := by
  constructor
  · intro outcome wl
    unfold scan_process
    rw [scan_fold_total]
    simp
  · exact scan_step_total

/-- C10: the `found` counter always equals the length of the accumulated
results list — as an invariant preserved by every collection step, and
hence in the final statistics of every run (every prefix of the run is
itself a `scan_process`, so the equality holds throughout). -/
theorem found_counter_invariant :
    (∀ (outcome : String → CollectOutcome) (wl : List String),
        (scan_process outcome wl).1.found =
          (scan_process outcome wl).2.length) ∧
    (∀ (outcome : String → CollectOutcome)
        (acc : ScanStats × List ProbeResult) (w : String),
        acc.1.found = acc.2.length →
        (scan_step outcome acc w).1.found =
          (scan_step outcome acc w).2.length) := by
  constructor
  · intro outcome wl
    unfold scan_process
    rw [scan_fold_found, scan_fold_results]
    simp
  · intro outcome acc w h
    rw [scan_step_found, scan_step_results, h]
    simp

/-- Witness for C10 at a concrete accumulator satisfying the invariant. -/
theorem found_counter_invariant_witness :
    (scan_step (fun _ => .transport .falsy) (⟨3, 0, 0⟩, []) "w").1.found =
      (scan_step (fun _ => .transport .falsy) (⟨3, 0, 0⟩, []) "w").2.length := by
  exact found_counter_invariant.2 (fun _ => .transport .falsy)
    (⟨3, 0, 0⟩, []) "w" (by decide)

end DirectoryScanner

namespace SQLiScanner

theorem error_loop_strategy
    (detectE : String → String → Option (String × List Char)) (param : String) :
    ∀ (pls : List String), ∀ r ∈ (error_payload_loop detectE param pls).2,
      r.strategy = .error := by
  intro pls
  induction pls with
  | nil => intro r hr; simp [error_payload_loop] at hr
  | cons payload rest ih =>
      intro r hr
      unfold error_payload_loop at hr
      cases h : detectE param payload with
      | some v =>
          obtain ⟨db, msg⟩ := v
          simp [h] at hr
          rw [hr]
      | none =>
          simp [h] at hr
          rcases hr with hr | hr
          · rw [hr]
          · exact ih r hr

theorem test_error_strategy
    (detectE : String → String → Option (String × List Char))
    (eps : List String) :
    ∀ (params : List String), ∀ r ∈ (test_error_based detectE eps params).2,
      r.strategy = .error := by
  intro params
  induction params with
  | nil => intro r hr; simp [test_error_based] at hr
  | cons p rest ih =>
      intro r hr
      unfold test_error_based at hr
      simp at hr
      rcases hr with hr | hr
      · exact error_loop_strategy detectE p _ r hr
      · exact ih r hr

theorem time_loop_strategy (fetchT : String → String → Option ℚ)
    (bt : ℚ) (param : String) :
    ∀ (pls : List String), ∀ r ∈ (time_payload_loop fetchT bt param pls).2,
      r.strategy = .timing := by
  intro pls
  induction pls with
  | nil => intro r hr; simp [time_payload_loop] at hr
  | cons payload rest ih =>
      intro r hr
      unfold time_payload_loop at hr
      cases h : fetchT param payload with
      | some t =>
          simp only [h] at hr
          split at hr
          · simp at hr
            rw [hr]
          · simp at hr
            rcases hr with hr | hr
            · rw [hr]
            · exact ih r hr
      | none =>
          simp [h] at hr
          rcases hr with hr | hr
          · rw [hr]
          · exact ih r hr

theorem test_time_strategy (fetchT : String → String → Option ℚ)
    (bt : ℚ) (tps : List String) :
    ∀ (params : List String),
      ∀ r ∈ (test_time_based fetchT bt tps params).2, r.strategy = .timing := by
  intro params
  induction params with
  | nil => intro r hr; simp [test_time_based] at hr
  | cons p rest ih =>
      intro r hr
      unfold test_time_based at hr
      simp at hr
      rcases hr with hr | hr
      · exact time_loop_strategy fetchT bt p _ r hr
      · exact ih r hr

theorem bool_param_strategy (fetchB : String → String → Option Response)
    (b : Response) (p : String) :
    ∀ r ∈ (test_boolean_param fetchB b p).2, r.strategy = .boolean := by
  intro r hr
  unfold test_boolean_param at hr
  cases h1 : fetchB p true_payload with
  | none => simp [h1] at hr; rw [hr]
  | some tr =>
      simp only [h1] at hr
      cases h2 : fetchB p false_payload with
      | none =>
          simp [h2] at hr
          rcases hr with hr | hr <;> rw [hr]
      | some fr =>
          simp only [h2] at hr
          split at hr <;> simp at hr <;> rcases hr with hr | hr <;> rw [hr]

theorem test_boolean_strategy (fetchB : String → String → Option Response)
    (b : Response) :
    ∀ (params : List String),
      ∀ r ∈ (test_boolean_based fetchB b params).2, r.strategy = .boolean := by
  intro params
  induction params with
  | nil => intro r hr; simp [test_boolean_based] at hr
  | cons p rest ih =>
      intro r hr
      unfold test_boolean_based at hr
      simp at hr
      rcases hr with hr | hr
      · exact bool_param_strategy fetchB b p r hr
      · exact ih r hr

theorem bool_param_treq_mem (fetchB : String → String → Option Response)
    (b : Response) (p : String) :
    (⟨.boolean, p, true_payload⟩ : Request) ∈ (test_boolean_param fetchB b p).2 := by
  unfold test_boolean_param
  cases h1 : fetchB p true_payload with
  | none => simp
  | some tr =>
      cases h2 : fetchB p false_payload with
      | none => simp
      | some fr =>
          by_cases hd : responses_differ_significantly tr fr b <;> simp [hd]

theorem test_boolean_treq_mem (fetchB : String → String → Option Response)
    (b : Response) :
    ∀ (params : List String), ∀ p ∈ params,
      (⟨.boolean, p, true_payload⟩ : Request) ∈
        (test_boolean_based fetchB b params).2 := by
  intro params
  induction params with
  | nil => intro p hp; simp at hp
  | cons q rest ih =>
      intro p hp
      unfold test_boolean_based
      simp at hp ⊢
      rcases hp with hp | hp
      · subst hp
        exact Or.inl (bool_param_treq_mem fetchB b p)
      · exact Or.inr (ih p hp)

theorem bool_param_high (fetchB : String → String → Option Response)
    (b : Response) (p : String) :
    ∀ f ∈ (test_boolean_param fetchB b p).1, f.confidence = .High := by
  intro f hf
  unfold test_boolean_param at hf
  cases h1 : fetchB p true_payload with
  | none => simp [h1] at hf
  | some tr =>
      simp only [h1] at hf
      cases h2 : fetchB p false_payload with
      | none => simp [h2] at hf
      | some fr =>
          simp only [h2] at hf
          split at hf <;> simp at hf
          rw [hf]
          rfl

theorem test_boolean_high (fetchB : String → String → Option Response)
    (b : Response) :
    ∀ (params : List String),
      ∀ f ∈ (test_boolean_based fetchB b params).1, f.confidence = .High := by
  intro params
  induction params with
  | nil => intro f hf; simp [test_boolean_based] at hf
  | cons p rest ih =>
      intro f hf
      unfold test_boolean_based at hf
      simp at hf
      rcases hf with hf | hf
      · exact bool_param_high fetchB b p f hf
      · exact ih f hf

theorem time_loop_findings (fetchT : String → String → Option ℚ)
    (bt : ℚ) (param : String) :
    ∀ (pls : List String), ∀ f ∈ (time_payload_loop fetchT bt param pls).1,
      ∃ payload t, fetchT param payload = some t ∧ t > bt + 5 ∧
        f = .timeBased param payload bt t (calculate_time_confidence t bt) := by
  intro pls
  induction pls with
  | nil => intro f hf; simp [time_payload_loop] at hf
  | cons payload rest ih =>
      intro f hf
      unfold time_payload_loop at hf
      cases h : fetchT param payload with
      | some t =>
          simp only [h] at hf
          split at hf
          · rename_i hgt
            simp at hf
            exact ⟨payload, t, h, hgt, hf⟩
          · simp at hf
            exact ih f hf
      | none =>
          simp [h] at hf
          exact ih f hf

theorem test_time_findings (fetchT : String → String → Option ℚ)
    (bt : ℚ) (tps : List String) :
    ∀ (params : List String), ∀ f ∈ (test_time_based fetchT bt tps params).1,
      ∃ p payload t, fetchT p payload = some t ∧ t > bt + 5 ∧
        f = .timeBased p payload bt t (calculate_time_confidence t bt) := by
  intro params
  induction params with
  | nil => intro f hf; simp [test_time_based] at hf
  | cons p rest ih =>
      intro f hf
      unfold test_time_based at hf
      simp at hf
      rcases hf with hf | hf
      · obtain ⟨payload, t, h1, h2, h3⟩ := time_loop_findings fetchT bt p _ f hf
        exact ⟨p, payload, t, h1, h2, h3⟩
      · exact ih f hf

theorem time_confidence_char (t bt : ℚ) (h : t > bt + 5) :
    calculate_time_confidence t bt = (if t - bt > 10 then .High else .Medium) ∧
      calculate_time_confidence t bt ≠ .Low := by
  unfold calculate_time_confidence
  by_cases h10 : t - bt > 10
  · simp [h10]
  · have h5 : t - bt > 5 := by linarith
    simp [h10, h5]

/-- C2 counterexample: with a single parameter `id`, an error strategy
that finds nothing and a timing oracle that confirms a finding for
`id`, the coordinator still issues both boolean-differential probe
requests for `id` — a confirmed timing finding does not skip the boolean
strategy for that parameter. -/
theorem strategy_skip_cx :
    strategy_skip_scenario.1 = [.timeBased "id" "t1" (3/10) 10 .Medium] ∧
    strategy_skip_scenario.2 =
      [⟨.error, "id", "p1"⟩, ⟨.timing, "id", "t1"⟩,
        ⟨.boolean, "id", true_payload⟩, ⟨.boolean, "id", false_payload⟩] := by
  have ht : (10 : ℚ) > 3/10 + 5 := by norm_num
  have ht10 : ¬ ((10 : ℚ) - 3/10 > 10) := by norm_num
  have ht5 : (10 : ℚ) - 3/10 > 5 := by norm_num
  have hb : responses_differ_significantly ⟨200, "page".data, 0⟩
      ⟨200, "page".data, 0⟩ ⟨200, "page".data, 3/10⟩ = false := by
    norm_num [responses_differ_significantly]
  constructor <;>
    simp [strategy_skip_scenario, scan, test_error_based, error_payload_loop,
      test_time_based, time_payload_loop, calculate_time_confidence,
      test_boolean_based, test_boolean_param, List.take, hb, ht, ht10, ht5]

/-- C2 amended: strategies run in the fixed order error-signature, then
timing, then boolean, but the skip rule is target-wide for both blind
strategies: once error-signature confirms a finding for any parameter,
no timing and no boolean probe request is issued at all; when
error-signature finds nothing, the boolean strategy probes every
parameter regardless of what the timing strategy found for it. -/
theorem strategy_order_amended :
    ∀ (params : List String) (b : Response) (eps tps : List String)
      (detectE : String → String → Option (String × List Char))
      (fetchT : String → String → Option ℚ)
      (fetchB : String → String → Option Response),
      ((test_error_based detectE eps params).1 ≠ [] →
        (scan params (some b) eps tps detectE fetchT fetchB).2 =
            (test_error_based detectE eps params).2 ∧
          ∀ r ∈ (scan params (some b) eps tps detectE fetchT fetchB).2,
            r.strategy = .error) ∧
      ((test_error_based detectE eps params).1 = [] →
        (scan params (some b) eps tps detectE fetchT fetchB).2 =
            (test_error_based detectE eps params).2 ++
              ((test_time_based fetchT b.elapsed_seconds tps params).2 ++
                (test_boolean_based fetchB b params).2) ∧
          ∀ p ∈ params,
            (⟨.boolean, p, true_payload⟩ : Request) ∈
              (scan params (some b) eps tps detectE fetchT fetchB).2) ∧
      (∀ r ∈ (test_error_based detectE eps params).2, r.strategy = .error) ∧
      (∀ r ∈ (test_time_based fetchT b.elapsed_seconds tps params).2,
          r.strategy = .timing) ∧
      (∀ r ∈ (test_boolean_based fetchB b params).2, r.strategy = .boolean) := by
  intro params b eps tps detectE fetchT fetchB
  refine ⟨?_, ?_, test_error_strategy _ _ _, test_time_strategy _ _ _ _,
    test_boolean_strategy _ _ _⟩
  · intro hne
    have hemp : (test_error_based detectE eps params).1.isEmpty = false := by
      cases hev : (test_error_based detectE eps params).1 with
      | nil => exact absurd hev hne
      | cons a l => rfl
    have hmain : (scan params (some b) eps tps detectE fetchT fetchB) =
        test_error_based detectE eps params := by
      simp [scan, hemp]
    rw [hmain]
    exact ⟨rfl, test_error_strategy _ _ _⟩
  · intro hev
    have hemp : (test_error_based detectE eps params).1.isEmpty = true := by
      rw [hev]; rfl
    have hmain : (scan params (some b) eps tps detectE fetchT fetchB).2 =
        (test_error_based detectE eps params).2 ++
          ((test_time_based fetchT b.elapsed_seconds tps params).2 ++
            (test_boolean_based fetchB b params).2) := by
      simp [scan, hemp]
    refine ⟨hmain, ?_⟩
    intro p hp
    rw [hmain]
    exact List.mem_append_right _
      (List.mem_append_right _ (test_boolean_treq_mem fetchB b params p hp))

/-- Witness for C2 amended: in the concrete scenario the error strategy
is empty, so the boolean true-condition probe for `id` is issued. -/
theorem strategy_order_amended_witness :
    (⟨.boolean, "id", SQLiScanner.true_payload⟩ : Request) ∈
      (scan ["id"] (some ⟨200, "page".data, 3/10⟩) ["p1"] ["t1"]
        (fun _ _ => none) (fun _ _ => some 10)
        (fun _ _ => some ⟨200, "page".data, 0⟩)).2 := by
  exact (strategy_order_amended ["id"] ⟨200, "page".data, 3/10⟩ ["p1"] ["t1"]
    (fun _ _ => none) (fun _ _ => some 10)
    (fun _ _ => some ⟨200, "page".data, 0⟩)).2.1 (by decide) |>.2 "id" (by decide)

/-- C4: a timing finding is emitted exactly when the measured elapsed
time exceeds the baseline plus 5 seconds; every emitted finding records
such a time, carries confidence High when the delta exceeds 10 seconds
and Medium otherwise, and is never Low; concretely, baseline 0.3s with
candidate 6.5s gives Medium, candidate 11.0s gives High. -/
theorem timing_strategy_correct :
    (∀ (fetchT : String → String → Option ℚ) (bt : ℚ)
        (tps params : List String) (f : SqliFinding),
        f ∈ (test_time_based fetchT bt tps params).1 →
        f.confidence ≠ .Low ∧
          ∃ p pl t, fetchT p pl = some t ∧ t > bt + 5 ∧
            f = .timeBased p pl bt t
              (if t - bt > 10 then .High else .Medium)) ∧
    (∀ (p pl : String) (bt t : ℚ),
        (test_time_based (fun _ _ => some t) bt [pl] [p]).1 ≠ [] ↔
          t > bt + 5) ∧
    ((test_time_based (fun _ _ => some (13/2)) (3/10) ["t1"] ["id"]).1 =
        [.timeBased "id" "t1" (3/10) (13/2) .Medium]) ∧
    ((test_time_based (fun _ _ => some 11) (3/10) ["t1"] ["id"]).1 =
        [.timeBased "id" "t1" (3/10) 11 .High]) := by
  refine ⟨?_, ?_, ?_, ?_⟩
  case refine_3 =>
    have h1 : (13 : ℚ)/2 > 3/10 + 5 := by norm_num
    have h2 : ¬ ((13 : ℚ)/2 - 3/10 > 10) := by norm_num
    have h3 : (13 : ℚ)/2 - 3/10 > 5 := by norm_num
    simp [test_time_based, time_payload_loop, calculate_time_confidence,
      List.take, h1, h2, h3]
  case refine_4 =>
    have h1 : (11 : ℚ) > 3/10 + 5 := by norm_num
    have h2 : (11 : ℚ) - 3/10 > 10 := by norm_num
    simp [test_time_based, time_payload_loop, calculate_time_confidence,
      List.take, h1, h2]
  · intro fetchT bt tps params f hf
    obtain ⟨p, pl, t, h1, h2, h3⟩ := test_time_findings fetchT bt tps params f hf
    obtain ⟨hc, hlow⟩ := time_confidence_char t bt h2
    constructor
    · rw [h3]
      unfold SqliFinding.confidence
      exact hlow
    · exact ⟨p, pl, t, h1, h2, by rw [h3, hc]⟩
  · intro p pl bt t
    simp only [test_time_based, time_payload_loop, List.take]
    by_cases hc : t > bt + 5 <;> simp [hc]

/-- Witness for C4 at the concrete Medium-confidence scenario. -/
theorem timing_strategy_correct_witness :
    (SqliFinding.timeBased "id" "t1" (3/10) (13/2) .Medium).confidence ≠ .Low := by
  have hmem : (SqliFinding.timeBased "id" "t1" (3/10) (13/2) .Medium) ∈
      (test_time_based (fun _ _ => some (13/2)) (3/10) ["t1"] ["id"]).1 := by
    rw [timing_strategy_correct.2.2.1]
    exact List.mem_singleton_self _
  exact (timing_strategy_correct.1 (fun _ _ => some (13/2)) (3/10) ["t1"] ["id"]
    (.timeBased "id" "t1" (3/10) (13/2) .Medium) hmem).1

set_option maxRecDepth 40000 in
/-- C5: the boolean-differential verdict is exactly (length difference
of the two responses over 100) OR (one response within 50 of the
baseline length while the other is more than 200 away) OR (different
status codes); every emitted boolean finding has confidence High; and
baseline length 1000 with true/false lengths 1005/1300 yields a single
High finding. -/
theorem boolean_strategy_correct :
    (∀ r1 r2 b : Response,
        responses_differ_significantly r1 r2 b = true ↔
          (((r1.text.length : ℤ) - r2.text.length).natAbs > 100 ∨
            ((((r1.text.length : ℤ) - b.text.length).natAbs < 50 ∧
                ((r2.text.length : ℤ) - b.text.length).natAbs > 200) ∨
              (((r2.text.length : ℤ) - b.text.length).natAbs < 50 ∧
                ((r1.text.length : ℤ) - b.text.length).natAbs > 200)) ∨
            r1.status_code ≠ r2.status_code)) ∧
    (∀ (fetchB : String → String → Option Response) (b : Response)
        (params : List String) (f : SqliFinding),
        f ∈ (test_boolean_based fetchB b params).1 → f.confidence = .High) ∧
    ((test_boolean_based
        (fun _ pl =>
          if pl = true_payload then some ⟨200, List.replicate 1005 'a', 0⟩
          else some ⟨200, List.replicate 1300 'a', 0⟩)
        ⟨200, List.replicate 1000 'a', 0⟩ ["id"]).1 =
      [.booleanBased "id" 1005 1300 .High]) := by
  refine ⟨?_, fun fetchB b params f hf => test_boolean_high fetchB b params f hf, ?_⟩
  · intro r1 r2 b
    simp only [responses_differ_significantly]
    split_ifs with h1 h2 h3 <;> simp_all
  · decide

set_option maxRecDepth 40000 in
/-- Witness for C5: the confidence of the concrete boolean finding is
High, by the always-High property at the concrete scenario. -/
theorem boolean_strategy_correct_witness :
    (SqliFinding.booleanBased "id" 1005 1300 .High).confidence = .High := by
  exact boolean_strategy_correct.2.1
    (fun _ pl =>
      if pl = true_payload then some ⟨200, List.replicate 1005 'a', 0⟩
      else some ⟨200, List.replicate 1300 'a', 0⟩)
    ⟨200, List.replicate 1000 'a', 0⟩ ["id"]
    (.booleanBased "id" 1005 1300 .High) (by decide)

end SQLiScanner

namespace XSSScanner

/-- C9: a payload is classified as reflected iff it appears verbatim in
the body, or its HTML-entity-encoded, URL-percent-encoded, or
Unicode-escaped variant appears, or — for payloads longer than 10
characters — both its first 5 and last 5 characters independently
appear; in particular `<script>alert(1)</script>` appearing only
HTML-entity-encoded is detected. -/
theorem reflection_detection :
    (∀ payload text : List Char,
        is_xss_reflected payload text = true ↔
          (containsSub payload text = true ∨
            containsSub (html_entity_variant payload) text = true ∨
            containsSub (percent_variant payload) text = true ∨
            containsSub (unicode_variant payload) text = true ∨
            (payload.length > 10 ∧
              containsSub (payload.take 5) text = true ∧
              containsSub (payload.drop (payload.length - 5)) text = true))) ∧
    is_xss_reflected ("<script>alert(1)</script>".data)
      ("&lt;script&gt;alert(1)&lt;/script&gt;".data) = true := by
  constructor
  · intro payload text
    unfold is_xss_reflected encoded_variations
    split_ifs with h1 h2 h3 <;>
      simp_all [List.any_cons, List.any_nil, Bool.and_eq_true] <;>
      tauto
  · decide

end XSSScanner

namespace DirectoryScanner

theorem splitSlash_ne_nil : ∀ l : List Char, splitSlash l ≠ []
  | [] => by simp [splitSlash]
  | c :: cs => by
      unfold splitSlash
      cases h : splitSlash cs with
      | nil => simp
      | cons s rest => by_cases hc : c = '/' <;> simp [hc]

theorem splitSlash_cons_slash (x : List Char) :
    splitSlash ('/' :: x) = [] :: splitSlash x := by
  simp only [splitSlash]
  cases h : splitSlash x with
  | nil => exact absurd h (splitSlash_ne_nil x)
  | cons s rest => simp

theorem splitSlash_append_no_slash (s : List Char) (hs : '/' ∉ s) :
    ∀ (x h : List Char) (t : List (List Char)), splitSlash x = h :: t →
      splitSlash (s ++ x) = (s ++ h) :: t := by
  induction s with
  | nil => intro x h t hx; simpa using hx
  | cons c cs ih =>
      intro x h t hx
      have hc : c ≠ '/' := fun hc => hs (by simp [hc])
      have hcs : '/' ∉ cs := fun hmem => hs (List.mem_cons_of_mem _ hmem)
      have ih2 := ih hcs x h t hx
      show splitSlash (c :: (cs ++ x)) = ((c :: cs) ++ h) :: t
      unfold splitSlash
      rw [ih2]
      simp [hc]

theorem joinSlash_splitSlash : ∀ l : List Char, joinSlash (splitSlash l) = l := by
  intro l
  induction l with
  | nil => rfl
  | cons c cs ih =>
      by_cases hc : c = '/'
      · subst hc
        rw [splitSlash_cons_slash]
        cases h : splitSlash cs with
        | nil => exact absurd h (splitSlash_ne_nil cs)
        | cons s rest =>
            rw [h] at ih
            show joinSlash ([] :: s :: rest) = '/' :: cs
            rw [show joinSlash ([] :: s :: rest) =
              [] ++ '/' :: joinSlash (s :: rest) from rfl, ih]
            simp
      · unfold splitSlash
        cases h : splitSlash cs with
        | nil => exact absurd h (splitSlash_ne_nil cs)
        | cons s rest =>
            rw [h] at ih
            simp only [hc, if_false]
            cases rest with
            | nil =>
                show joinSlash [c :: s] = c :: cs
                have hs : joinSlash [s] = cs := ih
                simp [joinSlash] at hs
                simp [joinSlash, hs]
            | cons r rs =>
                show (c :: s) ++ '/' :: joinSlash (r :: rs) = c :: cs
                have hs : s ++ '/' :: joinSlash (r :: rs) = cs := ih
                rw [← hs]
                simp

theorem absPath_cons (s : List Char) (rest : List (List Char)) :
    absPath (s :: rest) = '/' :: (s ++ absPath rest) := rfl

theorem absPath_eq_cons :
    ∀ (segs : List (List Char)), segs ≠ [] →
      absPath segs = '/' :: joinSlash segs := by
  intro segs
  induction segs with
  | nil => intro hne; exact absurd rfl hne
  | cons s rest ih =>
      intro _
      cases rest with
      | nil => simp [absPath, joinSlash]
      | cons r rs =>
          have ih2 := ih (by simp)
          rw [absPath_cons, ih2]
          show '/' :: (s ++ '/' :: joinSlash (r :: rs)) =
            '/' :: ((s ++ '/' :: joinSlash (r :: rs)))
          rfl

theorem splitSlash_absPath_slash :
    ∀ (segs : List (List Char)), (∀ s ∈ segs, '/' ∉ s) →
      splitSlash (absPath segs ++ ['/']) = [] :: (segs ++ [[]]) := by
  intro segs
  induction segs with
  | nil => intro _; rfl
  | cons s rest ih =>
      intro h
      have hs : '/' ∉ s := h s (by simp)
      have hrest : ∀ x ∈ rest, '/' ∉ x := fun x hx => h x (by simp [hx])
      have ih2 := ih hrest
      rw [absPath_cons]
      rw [show ('/' :: (s ++ absPath rest)) ++ ['/'] =
        '/' :: (s ++ (absPath rest ++ ['/'])) from by simp]
      rw [splitSlash_cons_slash]
      rw [splitSlash_append_no_slash s hs _ _ _ ih2]
      simp

theorem mem_of_getLast?_eq_some {α : Type} (a : α) :
    ∀ l : List α, l.getLast? = some a → a ∈ l := by
  intro l
  induction l with
  | nil => intro h; simp at h
  | cons x xs ih =>
      intro h
      cases hxs : xs with
      | nil => subst hxs; simp at h; simp [h]
      | cons y ys =>
          subst hxs
          rw [List.getLast?_cons_cons] at h
          exact List.mem_cons_of_mem _ (ih h)

theorem rstrip_slash_eq_self (l : List Char)
    (h : ∀ c, l.getLast? = some c → c ≠ '/') : rstrip_slash l = l := by
  cases hl : l.getLast? with
  | none =>
      have hnil : l = [] := by simpa using hl
      subst hnil; rfl
  | some c =>
      have hc := h c hl
      have hhead : l.reverse.head? = some c := by
        rw [List.head?_reverse]; exact hl
      obtain ⟨rest, hrest⟩ : ∃ rest, l.reverse = c :: rest := by
        cases hrev : l.reverse with
        | nil => rw [hrev] at hhead; simp at hhead
        | cons x xs =>
            rw [hrev] at hhead
            simp at hhead
            exact ⟨xs, by rw [hhead]⟩
      unfold rstrip_slash
      rw [hrest, List.dropWhile_cons]
      rw [show ((c = '/' : Bool)) = false from by simp [hc]]
      simp [← hrest]

theorem absPath_getLast_ne_slash :
    ∀ (segs : List (List Char)), (∀ s ∈ segs, s ≠ [] ∧ '/' ∉ s) →
      ∀ c, (absPath segs).getLast? = some c → c ≠ '/' := by
  intro segs
  induction segs with
  | nil => intro _ c hc; simp [absPath] at hc
  | cons s rest ih =>
      intro h c hc
      obtain ⟨hne, hns⟩ := h s (by simp)
      cases rest with
      | nil =>
          rw [absPath_cons] at hc
          simp only [absPath, List.foldr_nil, List.append_nil] at hc
          rw [show ('/' :: s) = ['/'] ++ s from rfl,
            List.getLast?_append_of_ne_nil _ hne] at hc
          exact fun hc' => hns (hc' ▸ mem_of_getLast?_eq_some c s hc)
      | cons r rs =>
          rw [absPath_cons] at hc
          have hner : absPath (r :: rs) ≠ [] := by rw [absPath_cons]; simp
          rw [show ('/' :: (s ++ absPath (r :: rs))) =
              (('/' :: s) ++ absPath (r :: rs)) from by simp,
            List.getLast?_append_of_ne_nil _ hner] at hc
          exact ih (fun x hx => h x (by simp [hx])) c hc

theorem joinSlash_append :
    ∀ (a b : List (List Char)), a ≠ [] → b ≠ [] →
      joinSlash (a ++ b) = joinSlash a ++ '/' :: joinSlash b := by
  intro a
  induction a with
  | nil => intro b h; exact absurd rfl h
  | cons s rest ih =>
      intro b _ hb
      cases rest with
      | nil =>
          cases b with
          | nil => exact absurd rfl hb
          | cons x xs => rfl
      | cons r rs =>
          have ih2 := ih b (by simp) hb
          show s ++ '/' :: joinSlash ((r :: rs) ++ b) =
            (s ++ '/' :: joinSlash (r :: rs)) ++ '/' :: joinSlash b
          rw [ih2]
          simp

theorem resolve_no_dots :
    ∀ (segs : List (List Char)),
      (∀ s ∈ segs, s ≠ ['.'] ∧ s ≠ ['.', '.']) →
      ∀ acc, segs.foldl resolve_step acc = acc ++ segs := by
  intro segs
  induction segs with
  | nil => intro _ acc; simp
  | cons s rest ih =>
      intro h acc
      obtain ⟨h1, h2⟩ := h s (by simp)
      rw [List.foldl_cons]
      rw [show resolve_step acc s = acc ++ [s] from by
        unfold resolve_step; rw [if_neg h2, if_neg h1]]
      rw [ih (fun x hx => h x (by simp [hx]))]
      simp

theorem resolveSegments_no_dots (segs : List (List Char))
    (h : ∀ s ∈ segs, s ≠ ['.'] ∧ s ≠ ['.', '.']) :
    resolveSegments segs = segs := by
  unfold resolveSegments
  rw [resolve_no_dots segs h []]
  have hlast : ¬ (segs.getLast? = some ['.'] ∨
      segs.getLast? = some ['.', '.']) := by
    rintro (hl | hl) <;>
      exact absurd hl (by
        intro hl2
        have hmem := mem_of_getLast?_eq_some _ segs hl2
        have := h _ hmem
        simp_all)
  rw [if_neg hlast]
  simp

theorem filterMiddle_concat (first : List Char) (mid : List (List Char))
    (last : List Char) :
    filterMiddle (first :: (mid ++ [last])) =
      first :: (mid.filter (fun s => !s.isEmpty)) ++ [last] := by
  simp only [filterMiddle]
  rw [List.getLast?_concat]
  simp [List.dropLast_concat]

theorem hasSchemeAux_no_colon :
    ∀ l : List Char, ':' ∉ l → hasSchemeAux l = false := by
  intro l
  induction l with
  | nil => intro _; rfl
  | cons c rest ih =>
      intro h
      have hc : ¬ c = ':' := fun hc => h (by simp [hc])
      unfold hasSchemeAux
      rw [if_neg hc, ih (fun hm => h (by simp [hm]))]
      simp

theorem hasScheme_no_colon (l : List Char) (h : ':' ∉ l) :
    hasScheme l = false := by
  cases l with
  | nil => rfl
  | cons c rest =>
      simp only [hasScheme]
      rw [hasSchemeAux_no_colon rest (fun hm => h (by simp [hm]))]
      simp

theorem isPrefixOfB_slash_false (c : Char) (x : List Char) (h : c ≠ '/') :
    isPrefixOfB ['/'] (c :: x) = false := by
  unfold isPrefixOfB
  simp [Ne.symm h]

theorem isPrefixOfB_dslash_false (c : Char) (x : List Char) (h : c ≠ '/') :
    isPrefixOfB ['/', '/'] (c :: x) = false := by
  unfold isPrefixOfB
  simp [Ne.symm h]

/-- C6 counterexample: for base URL `http://host/app` and candidate
`../admin`, the probe URL built by `_build_url` is `http://host/admin`,
which does not stay under the base URL's path prefix (the base URL
string is not even a prefix of the result). -/
theorem build_url_escape_cx :
    build_url ("host".data) ("/app".data) ("../admin".data) =
      ("http://host/admin".data) ∧
    isPrefixOfB ("http://host/app".data)
      (build_url ("host".data) ("/app".data) ("../admin".data)) = false := by
  decide

/-- C6 amended: a single leading slash is stripped from the candidate
before URL-path-joining, and for plain candidates — nonempty, not
beginning with '/', without ':' and with no empty or dot segments — the
result is exactly the base URL extended by '/' and the candidate, so it
stays under the base URL's path prefix; but the guarantee is not
universal (dot-segment candidates such as `../admin` escape the
prefix). The base URL is `"http://" ++ host ++ absPath bsegs` with
plain path segments. -/
theorem build_url_amended :
    ∀ (host : List Char) (bsegs : List (List Char)) (p : List Char),
      (∀ s ∈ bsegs, plainSegment s) →
      p ≠ [] →
      p.head? ≠ some '/' →
      (∀ c ∈ p, c ≠ ':') →
      (∀ s ∈ splitSlash p, s ≠ [] ∧ s ≠ ['.'] ∧ s ≠ ['.', '.']) →
      build_url host (absPath bsegs) p =
          ("http://".data ++ host ++ absPath bsegs ++ ['/']) ++ p ∧
        ("http://".data ++ host ++ absPath bsegs ++ ['/']) <+:
          build_url host (absPath bsegs) p ∧
        build_url host (absPath bsegs) ('/' :: p) =
          build_url host (absPath bsegs) p := by
  intro host bsegs p hb hp0 hp1 hp2 hp3
  obtain ⟨c0, p', hp⟩ : ∃ c0 p', p = c0 :: p' := by
    cases p with
    | nil => exact absurd rfl hp0
    | cons a l => exact ⟨a, l, rfl⟩
  have hc0 : c0 ≠ '/' := by
    intro hx
    apply hp1
    rw [hp, hx]
    rfl
  have hnp1 : isPrefixOfB ['/'] p = false := by
    rw [hp]; exact isPrefixOfB_slash_false _ _ hc0
  have hnp2 : isPrefixOfB ['/', '/'] p = false := by
    rw [hp]; exact isPrefixOfB_dslash_false _ _ hc0
  have hsch : hasScheme p = false :=
    hasScheme_no_colon p (fun hm => (hp2 ':' hm) rfl)
  have hbs : ∀ s ∈ bsegs, '/' ∉ s := fun s hs => ((hb s hs).2).1
  have hrs : rstrip_slash (absPath bsegs) = absPath bsegs :=
    rstrip_slash_eq_self _ (absPath_getLast_ne_slash bsegs
      (fun s hs => ⟨(hb s hs).1, ((hb s hs).2).1⟩))
  have h1 : splitSlash (absPath bsegs ++ ['/']) = [] :: (bsegs ++ [[]]) :=
    splitSlash_absPath_slash bsegs hbs
  have h2 : ([] :: (bsegs ++ [[]])).getLast? = some [] := by
    rw [show ([] :: (bsegs ++ [[]])) = (([] :: bsegs) ++ [[]]) from by simp]
    exact List.getLast?_concat _
  obtain ⟨q, lastseg, hq⟩ : ∃ q lastseg, splitSlash p = q ++ [lastseg] := by
    rcases List.eq_nil_or_concat (splitSlash p) with hnil | ⟨q, a, hqa⟩
    · exact absurd hnil (splitSlash_ne_nil p)
    · exact ⟨q, a, by rw [hqa, List.concat_eq_append]⟩
  have hqsub : ∀ s ∈ q, s ∈ splitSlash p := by
    intro s hs; rw [hq]; exact List.mem_append_left _ hs
  have hfil : (bsegs ++ ([[]] ++ q)).filter (fun s => !s.isEmpty) =
      bsegs ++ q := by
    rw [List.filter_append, List.filter_append]
    have hfb : bsegs.filter (fun s => !s.isEmpty) = bsegs := by
      rw [List.filter_eq_self]
      intro a ha
      have hane : a ≠ [] := (hb a ha).1
      cases a with
      | nil => exact absurd rfl hane
      | cons x xs => rfl
    have hfq : q.filter (fun s => !s.isEmpty) = q := by
      rw [List.filter_eq_self]
      intro a ha
      have hane : a ≠ [] := (hp3 a (hqsub a ha)).1
      cases a with
      | nil => exact absurd rfl hane
      | cons x xs => rfl
    rw [hfb, hfq]
    simp
  have hnodots : ∀ s ∈ ([] :: (bsegs ++ (q ++ [lastseg])) : List (List Char)),
      s ≠ ['.'] ∧ s ≠ ['.', '.'] := by
    intro s hs
    rcases List.mem_cons.mp hs with hs | hs
    · subst hs; exact ⟨by simp, by simp⟩
    · rcases List.mem_append.mp hs with hs | hs
      · exact ⟨((hb s hs).2).2.1, ((hb s hs).2).2.2⟩
      · have hmem : s ∈ splitSlash p := by rw [hq]; exact hs
        exact ⟨(hp3 s hmem).2.1, (hp3 s hmem).2.2⟩
  have hpj : joinSlash (q ++ [lastseg]) = p := by
    rw [← hq]; exact joinSlash_splitSlash p
  have hjoin : joinPath ([] :: (bsegs ++ (q ++ [lastseg]))) =
      absPath bsegs ++ '/' :: p := by
    have hrestne : bsegs ++ (q ++ [lastseg]) ≠ [] := by simp
    have hjs : joinSlash ([] :: (bsegs ++ (q ++ [lastseg]))) =
        '/' :: joinSlash (bsegs ++ (q ++ [lastseg])) := by
      cases hr : bsegs ++ (q ++ [lastseg]) with
      | nil => exact absurd hr hrestne
      | cons r rs => rfl
    simp only [joinPath]
    rw [hjs]
    rw [if_neg (by simp)]
    cases hbc : bsegs with
    | nil =>
        rw [List.nil_append, hpj]
        simp [absPath]
    | cons b bs =>
        rw [joinSlash_append _ _ (by simp) (by simp), hpj,
          absPath_eq_cons _ (by simp)]
        simp
  have hmain : urljoin_http host (absPath bsegs ++ ['/']) p =
      "http://".data ++ host ++ (absPath bsegs ++ '/' :: p) := by
    simp only [urljoin_http]
    rw [if_neg hp0, hsch, hnp2, hnp1]
    simp only [Bool.false_eq_true, if_false, h1]
    rw [hq]
    rw [show (if (([] :: (bsegs ++ [[]])).getLast? ≠ some [])
        then ([] :: (bsegs ++ [[]])).dropLast else ([] :: (bsegs ++ [[]]))) =
        ([] :: (bsegs ++ [[]])) from by rw [if_neg]; rw [h2]; simp]
    rw [show ([] :: (bsegs ++ [[]])) ++ (q ++ [lastseg]) =
        [] :: ((bsegs ++ ([[]] ++ q)) ++ [lastseg]) from by simp]
    rw [filterMiddle_concat, hfil]
    rw [show ([] :: (bsegs ++ q) ++ [lastseg] : List (List Char)) =
        [] :: (bsegs ++ (q ++ [lastseg])) from by simp]
    rw [resolveSegments_no_dots _ hnodots, hjoin]
  have hbuild : build_url host (absPath bsegs) p =
      ("http://".data ++ host ++ absPath bsegs ++ ['/']) ++ p := by
    simp only [build_url]
    rw [hnp1]
    simp only [Bool.false_eq_true, if_false]
    rw [hrs, hmain]
    simp
  refine ⟨hbuild, ?_, ?_⟩
  · rw [hbuild]
    exact List.prefix_append _ _
  · simp only [build_url]
    have hT : isPrefixOfB ['/'] ('/' :: p) = true := by simp [isPrefixOfB]
    rw [hT, hnp1]
    simp

/-- Witness for C6 amended: base `http://host/app` with the plain
candidate `admin`. -/
theorem build_url_amended_witness :
    build_url ("host".data) (absPath ["app".data]) ("admin".data) =
      ("http://".data ++ "host".data ++ absPath ["app".data] ++ ['/']) ++
        "admin".data := by
  exact (build_url_amended "host".data ["app".data] "admin".data
    (by decide) (by decide) (by decide) (by decide) (by decide)).1

end DirectoryScanner

end Nidhz
